import Mathlib

/-!
Verification of the LocalTalk validation scripts.

This file gives a shallow embedding, over `List Char`, of

* `find_unbalanced_braces` from `find-braces.py`: a heuristic brace-balance
  checker that first strips here-strings, inline hashtable literals and
  single-line conditionals via four regular-expression substitutions, then
  counts `\x7b` and `\x7d` tokens line by line;
* `analyze_file_standards`, `analyze_repository_standards` and
  `calculate_quality_score` from `tests/code-standards-validator.py`: a
  rule-based static violation scanner together with its severity
  aggregation and quality score;
* the exit-status contract of `run-all-tests.py`.

Each Python regular expression used by these scripts is embedded as an
explicit deterministic matcher (the patterns involved admit no observable
backtracking beyond the optional-keyword groups, which are modelled with
ordered alternative choice).  Python `re.sub`/`re.findall` left-to-right
non-overlapping scanning is modelled by fuel-indexed scanners, the fuel
being the length of the input, which every matcher strictly decreases.
-/

/-! ### Character classes (ASCII fragment of Python `\s`, `\w`, `[a-z]`) -/

def isSpaceChar (c : Char) : Bool :=
  c == ' ' || c == '\t' || c == '\n' || c == '\r' || c == '\x0b' || c == '\x0c'

def isWordChar (c : Char) : Bool :=
  c.isAlphanum || c == '_'

def isLowerAlpha (c : Char) : Bool :=
  'a' ≤ c && c ≤ 'z'

def isWordDot (c : Char) : Bool :=
  isWordChar c || c == '.'

def squote : Char := Char.ofNat 39

def isQuote (c : Char) : Bool :=
  c == '"' || c == squote

/-- Python `str.strip()`: remove leading and trailing whitespace. -/
def strip (l : List Char) : List Char :=
  ((l.dropWhile isSpaceChar).reverse.dropWhile isSpaceChar).reverse

/-! ### Primitive matcher combinators

A matcher takes the input suffix starting at the current position and
returns the remainder after the match, or `none`. -/

/-- Match a literal character sequence. -/
def dropLit : List Char → List Char → Option (List Char)
  | [], s => some s
  | _ :: _, [] => none
  | p :: ps, c :: cs => if p = c then dropLit ps cs else none

/-- Match one literal character. -/
def expectChar (x : Char) : List Char → Option (List Char)
  | [] => none
  | c :: rest => if c = x then some rest else none

/-- Match `[^X]*X`: skip to just past the first occurrence of `stop`. -/
def dropUntilClose (stop : Char) : List Char → Option (List Char)
  | [] => none
  | c :: rest => if c = stop then some rest else dropUntilClose stop rest

/-- Match `\s+` (greedy; deterministic as every follower starts with a
non-space character). -/
def spaces1 (s : List Char) : Option (List Char) :=
  match s.span isSpaceChar with
  | ([], _) => none
  | (_ :: _, rest) => some rest

/-- Match `\w+` (greedy maximal run). -/
def word1 (s : List Char) : Option (List Char) :=
  match s.span isWordChar with
  | ([], _) => none
  | (_ :: _, rest) => some rest

/-! ### The four removal patterns of `find_unbalanced_braces` -/

/-- Non-greedy search for the here-string closer `"@`; returns the
remainder after the first occurrence. -/
def dropUntilHereClose : List Char → Option (List Char)
  | [] => none
  | '"' :: '@' :: rest => some rest
  | _ :: rest => dropUntilHereClose rest

/-- Pattern 1, `@"[\s\S]*?"@`: a PowerShell here-string. -/
def tryHere : List Char → Option (List Char)
  | '@' :: '"' :: rest => dropUntilHereClose rest
  | _ => none

/-- Pattern 2, hashtable literals `@\s*\x7b[^\x7d]*\x7d`. -/
def tryHash : List Char → Option (List Char)
  | '@' :: rest =>
    match rest.dropWhile isSpaceChar with
    | '{' :: r2 => dropUntilClose '}' r2
    | _ => none
  | _ => none

def litIf : List Char := ['i', 'f']

def litElse : List Char := ['e', 'l', 's', 'e']

/-- The single-line conditional pattern shared by removal patterns 3 and 4:
`if\s*\([^)]*\)\s*\x7b\s*[^\x7d]*\s*\x7d\s*else\s*\x7b\s*[^\x7d]*\s*\x7d`. -/
def tryIfCore (s : List Char) : Option (List Char) := do
  let s ← dropLit litIf s
  let s := s.dropWhile isSpaceChar
  let s ← expectChar '(' s
  let s ← dropUntilClose ')' s
  let s := s.dropWhile isSpaceChar
  let s ← expectChar '{' s
  let s ← dropUntilClose '}' s
  let s := s.dropWhile isSpaceChar
  let s ← dropLit litElse s
  let s := s.dropWhile isSpaceChar
  let s ← expectChar '{' s
  dropUntilClose '}' s

/-- Pattern 3: a bare single-line `if (...) \x7b ... \x7d else \x7b ... \x7d`. -/
def tryInlineIf (s : List Char) : Option (List Char) :=
  tryIfCore s

/-- Pattern 4: `\$\(\s*if ... \s*\)`, the inline conditional wrapper. -/
def tryDollarIf : List Char → Option (List Char)
  | '$' :: '(' :: rest =>
    match tryIfCore (rest.dropWhile isSpaceChar) with
    | some r2 => expectChar ')' (r2.dropWhile isSpaceChar)
    | none => none
  | _ => none

/-! ### `re.sub(pattern, '', text)`: left-to-right non-overlapping removal -/

def reStripAux (f : List Char → Option (List Char)) : Nat → List Char → List Char
  | 0, s => s
  | _ + 1, [] => []
  | fuel + 1, c :: rest =>
    match f (c :: rest) with
    | some r => reStripAux f fuel r
    | none => c :: reStripAux f fuel rest

def reStrip (f : List Char → Option (List Char)) (s : List Char) : List Char :=
  reStripAux f s.length s

/-- The preprocessing pipeline of `find_unbalanced_braces`, in source
order: here-strings, hashtable literals, inline ifs, `$( if ... )`. -/
def cleanContent (content : List Char) : List Char :=
  reStrip tryDollarIf (reStrip tryInlineIf (reStrip tryHash (reStrip tryHere content)))

/-! ### Line splitting and the brace scan -/

/-- Python `str.split('\n')`. -/
def splitLines : List Char → List (List Char)
  | [] => [[]]
  | c :: rest =>
    if c = '\n' then [] :: splitLines rest
    else
      match splitLines rest with
      | [] => [[c]]
      | l :: ls => (c :: l) :: ls

/-- A located curly brace: 1-indexed line, 0-indexed column, and the
stripped text of the line it was found on. -/
structure BraceToken where
  line : Nat
  col : Nat
  context : List Char
deriving DecidableEq, Repr

/-- Collect the open- and close-brace tokens of one line (`ctx` is the
stripped line text, `j` the current column). -/
def scanLineAux (i : Nat) (ctx : List Char) : Nat → List Char → List BraceToken × List BraceToken
  | _, [] => ([], [])
  | j, c :: rest =>
    let p := scanLineAux i ctx (j + 1) rest
    if c = '{' then (⟨i, j, ctx⟩ :: p.1, p.2)
    else if c = '}' then (p.1, ⟨i, j, ctx⟩ :: p.2)
    else p

def scanLine (i : Nat) (l : List Char) : List BraceToken × List BraceToken :=
  scanLineAux i (strip l) 0 l

def scanLinesFrom : Nat → List (List Char) → List BraceToken × List BraceToken
  | _, [] => ([], [])
  | i, l :: ls =>
    let p := scanLine i l
    let q := scanLinesFrom (i + 1) ls
    (p.1 ++ q.1, p.2 ++ q.2)

/-- Python `l[-10:]`: the last at most ten elements. -/
def lastTen {α : Type} (l : List α) : List α :=
  l.drop (l.length - 10)

/-- The observable outcome of `find_unbalanced_braces`: the token lists,
the printed difference, the printed trailing diagnostics (printed only
when the counts differ), and the returned balance flag. -/
structure BalanceResult where
  openTokens : List BraceToken
  closeTokens : List BraceToken
  difference : Int
  lastOpen : List BraceToken
  lastClose : List BraceToken
  balanced : Bool
deriving Repr

/-- Embedding of `find_unbalanced_braces` (`find-braces.py`, lines 14-51),
as a function of the file content. -/
def find_unbalanced_braces (content : List Char) : BalanceResult :=
  let clean := cleanContent content
  let p := scanLinesFrom 1 (splitLines clean)
  { openTokens := p.1
    closeTokens := p.2
    difference := (p.1.length : Int) - (p.2.length : Int)
    lastOpen := if p.1.length = p.2.length then [] else lastTen p.1
    lastClose := if p.1.length = p.2.length then [] else lastTen p.2
    balanced := p.1.length == p.2.length }

/-! ### `analyze_file_standards`: regular-expression matchers -/

def kwPublic : List Char := ['p', 'u', 'b', 'l', 'i', 'c']

def kwPrivate : List Char := ['p', 'r', 'i', 'v', 'a', 't', 'e']

def kwProtected : List Char := ['p', 'r', 'o', 't', 'e', 'c', 't', 'e', 'd']

def kwInternal : List Char := ['i', 'n', 't', 'e', 'r', 'n', 'a', 'l']

def kwStatic : List Char := ['s', 't', 'a', 't', 'i', 'c']

def kwVirtual : List Char := ['v', 'i', 'r', 't', 'u', 'a', 'l']

def kwOverride : List Char := ['o', 'v', 'e', 'r', 'r', 'i', 'd', 'e']

def kwAsync : List Char := ['a', 's', 'y', 'n', 'c']

/-- An optional keyword group `(?:kw\s+)?`: greedily try the group, fall
back to skipping it (Python optional-group backtracking). -/
def tryKwOpt {α : Type} (kw : List Char) (s : List Char)
    (k : List Char → Option α) : Option α :=
  (do
    let r ← dropLit kw s
    let r ← spaces1 r
    k r) <|> k s

/-- First literal of a list that is a prefix of `s` (regex alternation in
order; the alternatives used are pairwise prefix-free). -/
def tryAnyLit : List (List Char) → List Char → Option (List Char)
  | [], _ => none
  | kw :: kws, s =>
    match dropLit kw s with
    | some r => some r
    | none => tryAnyLit kws s

/-- `\w+\s+` (one block of the repeated group). -/
def blockWS (s : List Char) : Option (List Char) := do
  let s ← word1 s
  spaces1 s

/-- `\w+\s*[(\x7b]`, the tail of the public-member pattern. -/
def tailPM (s : List Char) : Option (List Char) := do
  let s ← word1 s
  match s.dropWhile isSpaceChar with
  | [] => none
  | c :: rest => if c = '(' ∨ c = '{' then some rest else none

/-- Greedy `(?:\w+\s+)*` followed by `tailPM`, preferring one more block,
with fuel (a block consumes at least two characters). -/
def plusLoopPM : Nat → List Char → Option (List Char)
  | 0, _ => none
  | fuel + 1, s =>
    (match blockWS s with
     | some r => plusLoopPM fuel r
     | none => none) <|> tailPM s

/-- The public-member pattern of the documentation rule:
`public\s+(?:static\s+)?(?:virtual\s+)?(?:override\s+)?(?:async\s+)?(?:\w+\s+)+\w+\s*[(\x7b]`. -/
def tryPublicMember (s : List Char) : Option (List Char) := do
  let r ← dropLit kwPublic s
  let r ← spaces1 r
  tryKwOpt kwStatic r fun r1 =>
  tryKwOpt kwVirtual r1 fun r2 =>
  tryKwOpt kwOverride r2 fun r3 =>
  tryKwOpt kwAsync r3 fun r4 => do
    let r5 ← blockWS r4
    plusLoopPM r5.length r5

/-- The camelCase-property pattern `public\s+\w+\s+([a-z]\w*)\s*\x7b`,
returning the captured identifier and the remainder. -/
def tryCamel (s : List Char) : Option (List Char × List Char) := do
  let s ← dropLit kwPublic s
  let s ← spaces1 s
  let s ← word1 s
  let s ← spaces1 s
  match s with
  | [] => none
  | c :: rest =>
    if isLowerAlpha c then
      match rest.span isWordChar with
      | (w, rest2) =>
        match (rest2.dropWhile isSpaceChar) with
        | [] => none
        | b :: rest3 => if b = '{' then some (c :: w, rest3) else none
    else none

def secretKeys1 : List (List Char) :=
  [['p','a','s','s','w','o','r','d'], ['s','e','c','r','e','t'],
   ['k','e','y'], ['t','o','k','e','n']]

def secretKeys2 : List (List Char) :=
  [['a','p','i','_','k','e','y'], ['a','p','i','k','e','y'],
   ['a','u','t','h','_','t','o','k','e','n']]

/-- A hardcoded-secret pattern
`(kw1|...)\s*=\s*["&][^"&]+["&]` (where `&` stands for a single quote). -/
def trySecret (kws : List (List Char)) (s : List Char) : Option (List Char) := do
  let r ← tryAnyLit kws s
  let r := r.dropWhile isSpaceChar
  let r ← expectChar '=' r
  let r := r.dropWhile isSpaceChar
  match r with
  | [] => none
  | q :: r2 =>
    if isQuote q then
      match r2.span (fun c => ! isQuote c) with
      | ([], _) => none
      | (_ :: _, r3) =>
        match r3 with
        | [] => none
        | q2 :: r4 => if isQuote q2 then some r4 else none
    else none

/-- The method body `[^\x7b\x7d]*(?:\x7b[^\x7b\x7d]*\x7d[^\x7b\x7d]*)*` followed by the
closing `\x7d`: scan tolerating one level of nesting, returning the captured
body and the remainder.  `depth1` records being inside a nested block. -/
def bodyScan : Bool → List Char → List Char → Option (List Char × List Char)
  | _, _, [] => none
  | depth1, acc, c :: rest =>
    if c = '}' then
      if depth1 then bodyScan false (c :: acc) rest
      else some (acc.reverse, rest)
    else if c = '{' then
      if depth1 then none
      else bodyScan true (c :: acc) rest
    else bodyScan depth1 (c :: acc) rest

/-- `\w+\s+\w+\s*\([^)]*\)\s*\x7b` followed by the body capture. -/
def methodTail (s : List Char) : Option (List Char × List Char) := do
  let s ← word1 s
  let s ← spaces1 s
  let s ← word1 s
  let s ← expectChar '(' (s.dropWhile isSpaceChar)
  let s ← dropUntilClose ')' s
  let s ← expectChar '{' (s.dropWhile isSpaceChar)
  bodyScan false [] s

/-- The method-complexity pattern
`(?:public|private|protected|internal)\s+(?:static\s+)?(?:virtual\s+)?(?:override\s+)?(?:async\s+)?\w+\s+\w+\s*\([^)]*\)\s*\x7b(body)\x7d`,
returning the captured body. -/
def tryMethod (s : List Char) : Option (List Char × List Char) := do
  let r ← tryAnyLit [kwPublic, kwPrivate, kwProtected, kwInternal] s
  let r ← spaces1 r
  tryKwOpt kwStatic r fun r1 =>
  tryKwOpt kwVirtual r1 fun r2 =>
  tryKwOpt kwOverride r2 fun r3 =>
  tryKwOpt kwAsync r3 fun r4 =>
    methodTail r4

/-! ### `re.findall`-style scanners -/

/-- Count the non-overlapping left-to-right matches of `f`. -/
def reCountAux (f : List Char → Option (List Char)) : Nat → List Char → Nat
  | 0, _ => 0
  | _ + 1, [] => 0
  | fuel + 1, c :: rest =>
    match f (c :: rest) with
    | some r => 1 + reCountAux f fuel r
    | none => reCountAux f fuel rest

def reCount (f : List Char → Option (List Char)) (s : List Char) : Nat :=
  reCountAux f s.length s

/-- Collect the captures of the non-overlapping left-to-right matches. -/
def reScanAux {α : Type} (f : List Char → Option (α × List Char)) :
    Nat → List Char → List α
  | 0, _ => []
  | _ + 1, [] => []
  | fuel + 1, c :: rest =>
    match f (c :: rest) with
    | some (a, r) => a :: reScanAux f fuel r
    | none => reScanAux f fuel rest

def reScan {α : Type} (f : List Char → Option (α × List Char)) (s : List Char) : List α :=
  reScanAux f s.length s

/-- Python `str.count(pat)`: non-overlapping substring occurrences. -/
def countSubstrAux (pat : List Char) : Nat → List Char → Nat
  | 0, _ => 0
  | _ + 1, [] => 0
  | fuel + 1, c :: rest =>
    match dropLit pat (c :: rest) with
    | some r => 1 + countSubstrAux pat fuel r
    | none => countSubstrAux pat fuel rest

def countSubstr (pat s : List Char) : Nat :=
  countSubstrAux pat s.length s

/-- The magic-number pattern `\b(?<![\w.])\d\x7b2,\x7d\b(?![\w.])`: maximal digit
runs of length at least two, preceded and followed by neither a word
character nor a dot.  `prevWD` records whether the previous character is
a word character or dot (the lookbehind state). -/
def magicAux : Nat → Bool → List Char → List (List Char)
  | 0, _, _ => []
  | _ + 1, _, [] => []
  | fuel + 1, prevWD, c :: rest =>
    if c.isDigit && ! prevWD then
      match (c :: rest).span Char.isDigit with
      | (ds, r2) =>
        if 2 ≤ ds.length
            && (match r2 with | [] => true | d :: _ => ! isWordDot d) then
          ds :: magicAux fuel true r2
        else magicAux fuel true rest
    else magicAux fuel (isWordDot c) rest

def magicNumbers (content : List Char) : List (List Char) :=
  magicAux content.length false content

/-! ### `analyze_file_standards`: rule conditions and metrics record -/

def summaryMarker : List Char :=
  ['/', '/', '/', ' ', '<', 's', 'u', 'm', 'm', 'a', 'r', 'y', '>']

def litUsingSp : List Char := ['u', 's', 'i', 'n', 'g', ' ']

def litUsingPar : List Char := ['u', 's', 'i', 'n', 'g', ' ', '(']

def allowedNumbers : List (List Char) :=
  [['1','0','0'], ['2','0','0'], ['4','0','4'], ['5','0','0'],
   ['1','0','0','0'], ['2','0','0','0']]

def toLowerContent (s : List Char) : List Char := s.map Char.toLower

/-- Lines whose stripped text exceeds 120 characters. -/
def longLineCount (lines : List (List Char)) : Nat :=
  (lines.filter (fun l => 120 < (strip l).length)).length

def publicMembers (content : List Char) : Nat :=
  reCount tryPublicMember content

def xmlDocs (content : List Char) : Nat :=
  countSubstr summaryMarker content

def camelProps (content : List Char) : List (List Char) :=
  reScan tryCamel content

/-- `line.strip().startswith('using ') and not line.strip().startswith('using (')`. -/
def usingCount (lines : List (List Char)) : Nat :=
  (lines.filter (fun l =>
    litUsingSp.isPrefixOf (strip l) && ! litUsingPar.isPrefixOf (strip l))).length

/-- Whether either hardcoded-secret pattern matches the lower-cased text. -/
def secretsFound (content : List Char) : Bool :=
  0 < reCount (trySecret secretKeys1) (toLowerContent content) ||
  0 < reCount (trySecret secretKeys2) (toLowerContent content)

/-- Magic numbers surviving the allow-list filter. -/
def magicFiltered (content : List Char) : List (List Char) :=
  (magicNumbers content).filter (fun n => ! allowedNumbers.contains n)

/-- Method bodies whose `len(block.split('\n'))` exceeds 50, i.e. with at
least 50 newline characters. -/
def complexBodies (content : List Char) : List (List Char) :=
  (reScan tryMethod content).filter (fun b => 50 ≤ List.count '\n' b)

/-- One appended violation message, with the numbers it reports. -/
inductive Violation where
  | longLines (count : Nat)
  | missingDocs (undocumented total : Nat)
  | naming (count : Nat)
  | usings (count : Nat)
  | security
  | magic (count : Nat)
  | complexity (count : Nat)
deriving DecidableEq, Repr

/-- The metrics dictionary built by `analyze_file_standards`. -/
structure FileMetrics where
  long_lines : Nat
  missing_docs : Nat
  camel_case_props : Nat
  unused_usings : Nat
  hardcoded_strings : Nat
  complex_methods : Nat
  magic_numbers : Nat
  total_loc : Nat
  documented_members : Nat
  total_public_members : Nat
  issues : Nat
  violations : List Violation
deriving DecidableEq, Repr

/-- Embedding of `analyze_file_standards`
(`tests/code-standards-validator.py`, lines 46-127). -/
def analyze_file_standards (lines : List (List Char)) (content : List Char) :
    FileMetrics :=
  let llc := longLineCount lines
  let pm := publicMembers content
  let xd := xmlDocs content
  let cam := camelProps content
  let us := usingCount lines
  let sec := secretsFound content
  let mag := magicFiltered content
  let cpx := complexBodies content
  let f1 := 0 < llc
  let f2 := xd < pm ∧ 0 < pm
  let f3 := cam ≠ []
  let f4 := 15 < us
  let f5 := sec = true
  let f6 := 5 < mag.length
  let f7 := cpx ≠ []
  { long_lines := if f1 then 1 else 0
    missing_docs := if f2 then 1 else 0
    camel_case_props := if f3 then 1 else 0
    unused_usings := if f4 then 1 else 0
    hardcoded_strings := if f5 then 1 else 0
    complex_methods := cpx.length
    magic_numbers := if f6 then 1 else 0
    total_loc := lines.length
    documented_members := xd
    total_public_members := pm
    issues :=
      (if f1 then 1 else 0) + (if f2 then 1 else 0) + (if f3 then 1 else 0) +
      (if f4 then 1 else 0) + (if f5 then 1 else 0) + (if f6 then 1 else 0) +
      (if f7 then 1 else 0)
    violations :=
      (if f1 then [Violation.longLines llc] else []) ++
      (if f2 then [Violation.missingDocs (pm - xd) pm] else []) ++
      (if f3 then [Violation.naming cam.length] else []) ++
      (if f4 then [Violation.usings us] else []) ++
      (if f5 then [Violation.security] else []) ++
      (if f6 then [Violation.magic mag.length] else []) ++
      (if f7 then [Violation.complexity cpx.length] else []) }

/-- Python `f.readlines()`: split after each newline, keeping it. -/
def pyReadlines : List Char → List (List Char)
  | [] => []
  | c :: rest =>
    if c = '\n' then ['\n'] :: pyReadlines rest
    else
      match pyReadlines rest with
      | [] => [[c]]
      | l :: ls => (c :: l) :: ls

/-- A file of given content as analysed by `analyze_repository_standards`:
`lines = f.readlines()`, `content = ''.join(lines)`. -/
def analyzeDoc (content : List Char) : FileMetrics :=
  analyze_file_standards (pyReadlines content) content

/-! ### `analyze_repository_standards`: severity aggregation -/

/-- The severity buckets of the aggregated report. -/
structure Issues where
  critical : Nat
  major : Nat
  minor : Nat
  fixable : Nat
deriving DecidableEq, Repr

/-- Embedding of the aggregation of `analyze_repository_standards`
(`tests/code-standards-validator.py`, lines 315-354): per-file metrics are
summed key by key, then bucketed by severity. -/
def analyze_repository_standards (files : List (List Char)) : Issues :=
  let ms := files.map analyzeDoc
  let hard := (ms.map (fun m => m.hardcoded_strings)).sum
  let docs := (ms.map (fun m => m.missing_docs)).sum
  let cam := (ms.map (fun m => m.camel_case_props)).sum
  let cpx := (ms.map (fun m => m.complex_methods)).sum
  let ll := (ms.map (fun m => m.long_lines)).sum
  let uu := (ms.map (fun m => m.unused_usings)).sum
  let mg := (ms.map (fun m => m.magic_numbers)).sum
  { critical := hard
    major := docs + cam + cpx
    minor := ll + uu + mg
    fixable := (docs + cam + cpx) + (ll + uu + mg) }

/-- The major bucket as claim C2 states it: each file counted once per
fired rule, for the naming, documentation and complexity rules. -/
def claimMajorBucket (files : List (List Char)) : Nat :=
  files.countP (fun f => (analyzeDoc f).missing_docs == 1) +
  files.countP (fun f => (analyzeDoc f).camel_case_props == 1) +
  files.countP (fun f => 0 < (analyzeDoc f).complex_methods)

/-! ### `calculate_quality_score` -/

/-- Embedding of `calculate_quality_score`
(`tests/code-standards-validator.py`, lines 437-452).  All quantities are
non-negative integers, and since the capped penalty is at most 95 the
natural subtraction `100 - max_penalty` agrees with integer subtraction. -/
def calculate_quality_score (critical major minor : Nat) : Nat :=
  let total_penalty := critical * 20 + major * 5 + minor * 1
  let max_penalty := min total_penalty 95
  max 5 (100 - max_penalty)

/-! ### `run-all-tests.py`: report summary and exit status -/

/-- A recorded test outcome status. -/
inductive TestStatus where
  | pass
  | fail
deriving DecidableEq, Repr

/-- The summary block of `generate_comprehensive_report`
(`run-all-tests.py`, lines 214-243).  Python computes `success_rate` with
float division; it is embedded as the exact rational. -/
structure ReportSummary where
  total_tests : Nat
  passed : Nat
  failed : Nat
  success_rate : ℚ
deriving DecidableEq, Repr

def generate_comprehensive_report (python_results ps_results : List TestStatus) :
    ReportSummary :=
  let total := python_results.length + ps_results.length
  let passed := (python_results ++ ps_results).countP (fun r => r == TestStatus.pass)
  { total_tests := total
    passed := passed
    failed := total - passed
    success_rate := if 0 < total then (passed : ℚ) / (total : ℚ) * 100 else 0 }

/-- The process exit status of `run-all-tests.py` (`main` returns
`success_rate >= 80` and the caller exits `0` on `True`, `1` on `False`). -/
def runAllTestsExitCode (python_results ps_results : List TestStatus) : Nat :=
  if 80 ≤ (generate_comprehensive_report python_results ps_results).success_rate
  then 0 else 1

/-! ### Fired-rule flags and no-match predicates -/

/-- The seven rule-firing conditions of `analyze_file_standards`, in
evaluation order: line length, documentation, naming, using statements,
secrets, magic numbers, method complexity. -/
def firedRuleFlags (lines : List (List Char)) (content : List Char) : List Bool :=
  [decide (0 < longLineCount lines),
   decide (xmlDocs content < publicMembers content ∧ 0 < publicMembers content),
   decide (camelProps content ≠ []),
   decide (15 < usingCount lines),
   secretsFound content,
   decide (5 < (magicFiltered content).length),
   decide (complexBodies content ≠ [])]

/-- `f` matches at no position of `s` (every suffix of `s` fails). -/
def noMatchB (f : List Char → Option (List Char)) (s : List Char) : Bool :=
  s.tails.all (fun t => (f t).isNone)

/-- None of the four preprocessing patterns of `find_unbalanced_braces`
matches anywhere in the text. -/
def noPreprocessing (content : List Char) : Bool :=
  noMatchB tryHere content && noMatchB tryHash content &&
    noMatchB tryInlineIf content && noMatchB tryDollarIf content

/-! ### Concrete example documents -/

/-- A balanced text containing none of the four preprocessing patterns. -/
def exPlain : List Char := "abc \x7b \x7d \x7b".data

/-- A text whose leading hashtable literal is removed by preprocessing,
leaving a shortened first line. -/
def exHashLine : List Char := "@ \x7bx\x7d \x7b".data

/-- An unbalanced text: two opens, no close. -/
def exUnbalanced : List Char := "\x7b \x7b".data

/-- A single-line document declaring one camelCase auto-property. -/
def exCamelProp : List Char := "public string name \x7b get; set; \x7d".data

/-- A document with two methods of more than 50 lines each. -/
def exTwoComplex : List Char :=
  "public void a()\x7b\n".data ++ List.replicate 49 '\n' ++
    "\x7d\npublic void b()\x7b\n".data ++ List.replicate 49 '\n' ++ ['}']

/-- A document containing hardcoded secrets in mixed case, matching both
secret patterns more than once. -/
def exSecrets : List Char :=
  "class C \x7b\n  var PassWord = \"abc123\";\n  var api_key = \"q\";\n  var secret = \"zzz\";\n\x7d".data

/-! ### Helper lemmas -/

/-- Each firing rule contributes exactly one violation message and one
issue increment, so the issue count equals the violation-list length. -/
lemma analyze_issues_eq_violations_length (lines : List (List Char)) (content : List Char) :
    (analyze_file_standards lines content).issues =
      (analyze_file_standards lines content).violations.length := by
  simp only [analyze_file_standards, List.length_append, apply_ite List.length,
    List.length_cons, List.length_nil]

/-- A list of zeroes and ones sums to the number of its ones. -/
lemma sum_eq_countP_one (l : List Nat) (h : ∀ x ∈ l, x ≤ 1) :
    l.sum = l.countP (fun x => x == 1) := by
  induction l with
  | nil => rfl
  | cons x xs ih =>
    have hx : x ≤ 1 := h x (by simp)
    have hxs : ∀ y ∈ xs, y ≤ 1 := fun y hy => h y (by simp [hy])
    rw [List.sum_cons, List.countP_cons, ih hxs]
    interval_cases x <;> simp [Nat.add_comm]

/-! ### Claim C4 -/

/-- Claim C4: for all non-negative critical, major and minor counts,
`calculate_quality_score` stays within [5, 100], is monotonically
non-increasing in each count, and one critical finding caps it at 80. -/
theorem C4_quality_score_bounds (c M m c' M' m' : Nat) :
    5 ≤ calculate_quality_score c M m ∧
    calculate_quality_score c M m ≤ 100 ∧
    (c ≤ c' → M ≤ M' → m ≤ m' →
      calculate_quality_score c' M' m' ≤ calculate_quality_score c M m) ∧
    (1 ≤ c → calculate_quality_score c M m ≤ 80) := by
  simp only [calculate_quality_score]
  omega

theorem C4_quality_score_bounds_witness :
    calculate_quality_score 2 3 4 ≤ calculate_quality_score 1 2 3 ∧
    calculate_quality_score 1 2 3 ≤ 80 :=
  ⟨(C4_quality_score_bounds 1 2 3 2 3 4).2.2.1 (by decide) (by decide) (by decide),
   (C4_quality_score_bounds 1 2 3 2 3 4).2.2.2 (by decide)⟩

/-! ### Claim C9 -/

/-- Claim C9: the test-runner process exits with status zero exactly when
the aggregate success rate (passed divided by total, times 100) is at
least 80; with no tests the rate is defined as 0 and the exit is nonzero.
The rate threshold is equivalent to `4 * total ≤ 5 * passed` on a
non-empty run. -/
theorem C9_exit_status (py ps : List TestStatus) :
    (runAllTestsExitCode py ps = 0 ↔
      80 ≤ (generate_comprehensive_report py ps).success_rate) ∧
    (80 ≤ (generate_comprehensive_report py ps).success_rate ↔
      0 < (generate_comprehensive_report py ps).total_tests ∧
        4 * (generate_comprehensive_report py ps).total_tests ≤
          5 * (generate_comprehensive_report py ps).passed) := by
  have key : ∀ p t : Nat, ((80 : ℚ) * t ≤ p * 100 ↔ 4 * t ≤ 5 * p) := by
    intro p t
    rw [show ((80 : ℚ) * t) = ((80 * t : Nat) : ℚ) by push_cast; ring,
        show ((p : ℚ) * 100) = ((p * 100 : Nat) : ℚ) by push_cast; ring,
        Nat.cast_le]
    omega
  constructor
  · simp only [runAllTestsExitCode]
    split <;> simp_all
  · simp only [generate_comprehensive_report]
    split
    · rename_i ht
      rw [div_mul_eq_mul_div, le_div_iff₀ (by exact_mod_cast ht), key]
      simp [ht]
    · rename_i ht
      simp_all

/-! ### Claim C10 -/

set_option maxRecDepth 20000 in
/-- Claim C10: the per-rule metric fields `long_lines`, `missing_docs`,
`camel_case_props`, `unused_usings`, `hardcoded_strings` and
`magic_numbers` are 0/1 fired flags, whereas `complex_methods` is the
number of over-50-line method bodies and can exceed 1 (witnessed by
`exTwoComplex`, which has two such bodies). -/
theorem C10_flag_fields (content : List Char) :
    ((analyzeDoc content).long_lines = 0 ∨ (analyzeDoc content).long_lines = 1) ∧
    ((analyzeDoc content).missing_docs = 0 ∨ (analyzeDoc content).missing_docs = 1) ∧
    ((analyzeDoc content).camel_case_props = 0 ∨ (analyzeDoc content).camel_case_props = 1) ∧
    ((analyzeDoc content).unused_usings = 0 ∨ (analyzeDoc content).unused_usings = 1) ∧
    ((analyzeDoc content).hardcoded_strings = 0 ∨ (analyzeDoc content).hardcoded_strings = 1) ∧
    ((analyzeDoc content).magic_numbers = 0 ∨ (analyzeDoc content).magic_numbers = 1) ∧
    (analyzeDoc content).complex_methods = (complexBodies content).length ∧
    1 < (analyzeDoc exTwoComplex).complex_methods := by
  refine ⟨?_, ?_, ?_, ?_, ?_, ?_, ?_, ?_⟩
  · simp only [analyzeDoc, analyze_file_standards]; split <;> simp
  · simp only [analyzeDoc, analyze_file_standards]; split <;> simp
  · simp only [analyzeDoc, analyze_file_standards]; split <;> simp
  · simp only [analyzeDoc, analyze_file_standards]; split <;> simp
  · simp only [analyzeDoc, analyze_file_standards]; split <;> simp
  · simp only [analyzeDoc, analyze_file_standards]; split <;> simp
  · simp [analyzeDoc, analyze_file_standards]
  · decide

/-! ### Claim C7 -/

/-- Claim C7: the `issues` field equals the number of rules (out of the
seven) whose firing condition held, not the number of individual matches,
and the violation list carries exactly one message per fired rule. -/
theorem C7_issues_count_fired_rules (content : List Char) :
    (analyzeDoc content).issues =
      (firedRuleFlags (pyReadlines content) content).count true ∧
    (analyzeDoc content).violations.length = (analyzeDoc content).issues := by
  constructor
  · simp only [analyzeDoc, analyze_file_standards, firedRuleFlags,
      List.count_cons, List.count_nil, beq_iff_eq, decide_eq_true_eq]
    split_ifs <;> simp_all [secretsFound]
  · exact (analyze_issues_eq_violations_length _ _).symm

/-! ### Claim C6 -/

/-- Claim C6: on any document whose (lower-cased) text matches a
hardcoded-secret pattern, the scanner fires the secrets rule exactly
once — one security violation and one issue increment — regardless of how
many matches exist and of which of the two patterns matched. -/
theorem C6_secrets_fire_once (content : List Char)
    (h : secretsFound content = true) :
    (analyzeDoc content).hardcoded_strings = 1 ∧
    (analyzeDoc content).violations.count Violation.security = 1 ∧
    (analyzeDoc content).issues = (analyzeDoc content).violations.length := by
  refine ⟨?_, ?_, analyze_issues_eq_violations_length _ _⟩
  · simp [analyzeDoc, analyze_file_standards, h]
  · simp only [analyzeDoc, analyze_file_standards, h]
    simp only [List.count_append, if_true]
    split_ifs <;> simp [List.count_cons, List.count_nil]

set_option maxRecDepth 20000 in
theorem C6_secrets_fire_once_witness :
    (analyzeDoc exSecrets).hardcoded_strings = 1 ∧
    (analyzeDoc exSecrets).violations.count Violation.security = 1 ∧
    (analyzeDoc exSecrets).issues = (analyzeDoc exSecrets).violations.length :=
  C6_secrets_fire_once exSecrets (by decide)

/-! ### Claim C3 -/

set_option maxRecDepth 20000 in
/-- Counterexample to claim C3: on the single-line document
`public string name \x7b get; set; \x7d` the scanner reports one
documentation violation, not zero — the public-member pattern
`public\s+...(?:\w+\s+)+\w+\s*[(\x7b]` matches `public string name \x7b`,
so one undocumented public member is counted. -/
theorem C3_counterexample :
    (analyzeDoc exCamelProp).missing_docs = 1 ∧
    (analyzeDoc exCamelProp).total_public_members = 1 ∧
    (analyzeDoc exCamelProp).violations.count (Violation.missingDocs 1 1) = 1 := by
  decide

set_option maxRecDepth 20000 in
/-- Claim C3 as amended: the document `public string name \x7b get; set; \x7d`
yields a naming-convention violation for the identifier `name`, exactly
one documentation violation (rather than zero), and a non-empty
violation list. -/
theorem C3_amended :
    camelProps exCamelProp = [['n', 'a', 'm', 'e']] ∧
    (analyzeDoc exCamelProp).violations =
      [Violation.missingDocs 1 1, Violation.naming 1] ∧
    (analyzeDoc exCamelProp).violations ≠ [] := by
  decide

/-! ### Claim C2 -/

/-- The six 0/1 fired-flag fields are bounded by one. -/
lemma analyzeDoc_flag_le_one (content : List Char) :
    (analyzeDoc content).long_lines ≤ 1 ∧
    (analyzeDoc content).missing_docs ≤ 1 ∧
    (analyzeDoc content).camel_case_props ≤ 1 ∧
    (analyzeDoc content).unused_usings ≤ 1 ∧
    (analyzeDoc content).hardcoded_strings ≤ 1 ∧
    (analyzeDoc content).magic_numbers ≤ 1 := by
  refine ⟨?_, ?_, ?_, ?_, ?_, ?_⟩ <;>
    (simp only [analyzeDoc, analyze_file_standards]; split <;> simp)

/-- Summing a 0/1-valued field over files counts the files where it is 1. -/
lemma map_sum_flag (files : List (List Char)) (g : List Char → Nat)
    (hg : ∀ f, g f ≤ 1) :
    (files.map g).sum = files.countP (fun f => g f == 1) := by
  rw [sum_eq_countP_one _ (by simpa using fun a _ => hg a), List.countP_map]
  rfl

set_option maxRecDepth 20000 in
/-- Counterexample to claim C2: for the single file `exTwoComplex`, which
contains two over-50-line methods, the aggregated major bucket is 3
(documentation flag 1, naming flag 0, complexity count 2), while counting
each file once per fired rule gives 2 — the complexity contribution is the
number of complex methods, not the number of files where the rule fired. -/
theorem C2_counterexample :
    (analyze_repository_standards [exTwoComplex]).major = 3 ∧
    claimMajorBucket [exTwoComplex] = 2 ∧
    (analyze_repository_standards [exTwoComplex]).major ≠
      claimMajorBucket [exTwoComplex] := by
  decide

/-- Claim C2 as amended: in the aggregated report, `critical` counts the
files where the secrets rule fired, `minor` counts files once per fired
minor rule, `fixable = major + minor`, but `major` is the count of files
where the documentation rule fired, plus the count of files where the
naming rule fired, plus the total number of over-50-line methods across
all files (not the number of files where the complexity rule fired). -/
theorem C2_amended_severity_buckets (files : List (List Char)) :
    (analyze_repository_standards files).critical =
      files.countP (fun f => (analyzeDoc f).hardcoded_strings == 1) ∧
    (analyze_repository_standards files).major =
      files.countP (fun f => (analyzeDoc f).missing_docs == 1) +
        files.countP (fun f => (analyzeDoc f).camel_case_props == 1) +
        (files.map (fun f => (analyzeDoc f).complex_methods)).sum ∧
    (analyze_repository_standards files).minor =
      files.countP (fun f => (analyzeDoc f).long_lines == 1) +
        files.countP (fun f => (analyzeDoc f).unused_usings == 1) +
        files.countP (fun f => (analyzeDoc f).magic_numbers == 1) ∧
    (analyze_repository_standards files).fixable =
      (analyze_repository_standards files).major +
        (analyze_repository_standards files).minor := by
  simp only [analyze_repository_standards, List.map_map, Function.comp_def]
  refine ⟨?_, ?_, ?_, trivial⟩
  · exact map_sum_flag files _ (fun f => (analyzeDoc_flag_le_one f).2.2.2.2.1)
  · rw [map_sum_flag files _ (fun f => (analyzeDoc_flag_le_one f).2.1),
      map_sum_flag files _ (fun f => (analyzeDoc_flag_le_one f).2.2.1)]
  · rw [map_sum_flag files _ (fun f => (analyzeDoc_flag_le_one f).1),
      map_sum_flag files _ (fun f => (analyzeDoc_flag_le_one f).2.2.2.1),
      map_sum_flag files _ (fun f => (analyzeDoc_flag_le_one f).2.2.2.2.2)]

/-! ### Claim C1 -/

lemma noMatchB_iff (f : List Char → Option (List Char)) (s : List Char) :
    noMatchB f s = true ↔ ∀ t, t <:+ s → f t = none := by
  simp only [noMatchB, List.all_eq_true, List.mem_tails, Option.isNone_iff_eq_none]

/-- If `f` matches at no position, removal is the identity. -/
lemma reStripAux_id (f : List Char → Option (List Char)) (s : List Char)
    (h : ∀ t, t <:+ s → f t = none) :
    ∀ n, s.length ≤ n → reStripAux f n s = s := by
  induction s with
  | nil => intro n _; cases n <;> rfl
  | cons c rest ih =>
    intro n hn
    match n with
    | m + 1 =>
      have hc : f (c :: rest) = none := h _ (List.suffix_refl _)
      simp only [reStripAux, hc]
      rw [ih (fun t ht => h t (ht.trans (List.suffix_cons c rest))) m
        (by simpa using hn)]

lemma reStrip_id (f : List Char → Option (List Char)) (s : List Char)
    (h : noMatchB f s = true) : reStrip f s = s :=
  reStripAux_id f s ((noMatchB_iff f s).mp h) s.length le_rfl

/-- Under `noPreprocessing`, the whole cleaning pipeline is the identity. -/
lemma cleanContent_id (content : List Char)
    (h : noPreprocessing content = true) : cleanContent content = content := by
  simp only [noPreprocessing, Bool.and_eq_true] at h
  obtain ⟨⟨⟨h1, h2⟩, h3⟩, h4⟩ := h
  simp only [cleanContent, reStrip_id tryHere content h1,
    reStrip_id tryHash content h2, reStrip_id tryInlineIf content h3,
    reStrip_id tryDollarIf content h4]

lemma splitLines_ne_nil (s : List Char) : splitLines s ≠ [] := by
  cases s with
  | nil => simp [splitLines]
  | cons c rest =>
    simp only [splitLines]
    split
    · simp
    · split <;> simp

/-- Splitting on newlines preserves the count of any non-newline character. -/
lemma splitLines_count_sum (c : Char) (hc : c ≠ '\n') (s : List Char) :
    ((splitLines s).map (fun l => List.count c l)).sum = List.count c s := by
  induction s with
  | nil => simp [splitLines]
  | cons x rest ih =>
    simp only [splitLines]
    split
    · rename_i hx
      subst hx
      simp only [List.map_cons, List.sum_cons, List.count_nil, Nat.zero_add, ih,
        List.count_cons]
      have : ('\n' == c) = false := by
        simpa using fun hh => hc hh.symm
      simp [this]
    · rename_i hx
      have hne := splitLines_ne_nil rest
      match hl : splitLines rest with
      | [] => exact absurd hl hne
      | l :: ls =>
        rw [hl] at ih
        simp only [List.map_cons, List.sum_cons, List.count_cons] at ih ⊢
        omega

lemma scanLineAux_lengths (i : Nat) (ctx : List Char) (l : List Char) :
    ∀ j, (scanLineAux i ctx j l).1.length = List.count '{' l ∧
      (scanLineAux i ctx j l).2.length = List.count '}' l := by
  induction l with
  | nil => intro j; simp [scanLineAux]
  | cons x rest ih =>
    intro j
    have := ih (j + 1)
    simp only [scanLineAux, List.count_cons]
    split
    · rename_i hx
      subst hx
      simp only [List.length_cons]
      constructor <;> simp <;> omega
    · split
      · rename_i hx' hx
        subst hx
        simp only [List.length_cons]
        constructor <;> simp <;> omega
      · rename_i hx1 hx2
        simp [this.1, this.2, hx1, hx2]

lemma scanLinesFrom_lengths (ls : List (List Char)) :
    ∀ i, (scanLinesFrom i ls).1.length =
        (ls.map (fun l => List.count '{' l)).sum ∧
      (scanLinesFrom i ls).2.length =
        (ls.map (fun l => List.count '}' l)).sum := by
  induction ls with
  | nil => intro i; simp [scanLinesFrom]
  | cons l rest ih =>
    intro i
    simp only [scanLinesFrom, scanLine, List.map_cons, List.sum_cons,
      List.length_append, (ih (i + 1)).1, (ih (i + 1)).2,
      (scanLineAux_lengths i (strip l) l 0).1,
      (scanLineAux_lengths i (strip l) l 0).2]
    exact ⟨trivial, trivial⟩

/-- Claim C1: when none of the four preprocessing patterns matches the
text, preprocessing is the identity and the reported difference is the
naive one: the number of opening braces minus the number of closing
braces of the original text. -/
theorem C1_preprocessing_noop (content : List Char)
    (h : noPreprocessing content = true) :
    (find_unbalanced_braces content).difference =
      (List.count '{' content : Int) - (List.count '}' content : Int) := by
  simp only [find_unbalanced_braces, cleanContent_id content h]
  rw [(scanLinesFrom_lengths (splitLines content) 1).1,
    (scanLinesFrom_lengths (splitLines content) 1).2,
    splitLines_count_sum '{' (by decide) content,
    splitLines_count_sum '}' (by decide) content]

theorem C1_preprocessing_noop_witness :
    noPreprocessing exPlain = true ∧
    (find_unbalanced_braces exPlain).difference =
      (List.count '{' exPlain : Int) - (List.count '}' exPlain : Int) :=
  ⟨by decide, C1_preprocessing_noop exPlain (by decide)⟩

/-! ### Claim C5 -/

lemma scanLineAux_mem (i : Nat) (ctx : List Char) (l : List Char) :
    ∀ j t, (t ∈ (scanLineAux i ctx j l).1 ∨ t ∈ (scanLineAux i ctx j l).2) →
      t.line = i ∧ t.context = ctx := by
  induction l with
  | nil => intro j t ht; simp [scanLineAux] at ht
  | cons x rest ih =>
    intro j t ht
    simp only [scanLineAux] at ht
    split at ht
    · rcases ht with ht | ht
      · rcases List.mem_cons.mp ht with h | h
        · subst h; exact ⟨rfl, rfl⟩
        · exact ih (j + 1) t (Or.inl h)
      · exact ih (j + 1) t (Or.inr ht)
    · split at ht
      · rcases ht with ht | ht
        · exact ih (j + 1) t (Or.inl ht)
        · rcases List.mem_cons.mp ht with h | h
          · subst h; exact ⟨rfl, rfl⟩
          · exact ih (j + 1) t (Or.inr h)
      · exact ih (j + 1) t ht

lemma scanLinesFrom_mem (ls : List (List Char)) :
    ∀ i t, (t ∈ (scanLinesFrom i ls).1 ∨ t ∈ (scanLinesFrom i ls).2) →
      ∃ k l, ls.get? k = some l ∧ t.line = i + k ∧ t.context = strip l := by
  induction ls with
  | nil => intro i t ht; simp [scanLinesFrom] at ht
  | cons l rest ih =>
    intro i t ht
    simp only [scanLinesFrom, List.mem_append] at ht
    have hcase : (t ∈ (scanLine i l).1 ∨ t ∈ (scanLine i l).2) ∨
        (t ∈ (scanLinesFrom (i + 1) rest).1 ∨ t ∈ (scanLinesFrom (i + 1) rest).2) := by
      tauto
    rcases hcase with h | h
    · have := scanLineAux_mem i (strip l) l 0 t h
      exact ⟨0, l, rfl, by omega, this.2⟩
    · obtain ⟨k, l', hk, hline, hctx⟩ := ih (i + 1) t h
      exact ⟨k + 1, l', by simpa using hk, by omega, hctx⟩

/-- Claim C5 as amended: every brace token's context is the stripped text
of the corresponding line of the *preprocessed* (post-removal) text,
looked up by line number — not of the original input. -/
theorem C5_amended_context_from_cleaned (content : List Char) (t : BraceToken)
    (h : t ∈ (find_unbalanced_braces content).openTokens ∨
      t ∈ (find_unbalanced_braces content).closeTokens) :
    ∃ l, (splitLines (cleanContent content)).get? (t.line - 1) = some l ∧
      t.context = strip l ∧ 1 ≤ t.line := by
  have h' : t ∈ (scanLinesFrom 1 (splitLines (cleanContent content))).1 ∨
      t ∈ (scanLinesFrom 1 (splitLines (cleanContent content))).2 := by
    simpa [find_unbalanced_braces] using h
  obtain ⟨k, l, hk, hline, hctx⟩ :=
    scanLinesFrom_mem (splitLines (cleanContent content)) 1 t h'
  exact ⟨l, by rw [hline]; simpa using hk, hctx, by omega⟩

/-- Counterexample to claim C5: on `exHashLine` (`@ \x7bx\x7d \x7b`) the
hashtable-literal removal shortens line 1 to ` \x7b`, and the single open
token carries context `\x7b` — the stripped *preprocessed* line — whereas
the stripped original line 1 is the full `@ \x7bx\x7d \x7b`. -/
theorem C5_counterexample :
    (find_unbalanced_braces exHashLine).openTokens =
      [⟨1, 1, ['{']⟩] ∧
    splitLines exHashLine = [exHashLine] ∧
    strip exHashLine = exHashLine ∧
    (['{'] : List Char) ≠ exHashLine := by
  decide

theorem C5_amended_context_witness :
    ∃ l, (splitLines (cleanContent exHashLine)).get?
        ((⟨1, 1, ['{']⟩ : BraceToken).line - 1) = some l ∧
      (⟨1, 1, ['{']⟩ : BraceToken).context = strip l ∧
      1 ≤ (⟨1, 1, ['{']⟩ : BraceToken).line :=
  C5_amended_context_from_cleaned exHashLine ⟨1, 1, ['{']⟩ (Or.inl (by decide))

/-! ### Claim C8 -/

/-- Claim C8: the check reports balanced exactly when the open and close
counts agree; when they differ the last at most ten open and close tokens
(in scan order, as suffixes of the token lists) are exposed as
diagnostics, and when they agree no diagnostic tokens are exposed.  The
check is a total function: no input raises an exception or aborts. -/
theorem C8_balance_diagnostics (content : List Char) :
    ((find_unbalanced_braces content).balanced = true ↔
      (find_unbalanced_braces content).openTokens.length =
        (find_unbalanced_braces content).closeTokens.length) ∧
    (find_unbalanced_braces content).lastOpen.length ≤ 10 ∧
    (find_unbalanced_braces content).lastClose.length ≤ 10 ∧
    (find_unbalanced_braces content).lastOpen <:+
      (find_unbalanced_braces content).openTokens ∧
    (find_unbalanced_braces content).lastClose <:+
      (find_unbalanced_braces content).closeTokens ∧
    ((find_unbalanced_braces content).openTokens.length =
        (find_unbalanced_braces content).closeTokens.length →
      (find_unbalanced_braces content).lastOpen = [] ∧
        (find_unbalanced_braces content).lastClose = []) ∧
    ((find_unbalanced_braces content).openTokens.length ≠
        (find_unbalanced_braces content).closeTokens.length →
      (find_unbalanced_braces content).lastOpen =
          lastTen (find_unbalanced_braces content).openTokens ∧
        (find_unbalanced_braces content).lastClose =
          lastTen (find_unbalanced_braces content).closeTokens) := by
  simp only [find_unbalanced_braces]
  refine ⟨by simp, ?_, ?_, ?_, ?_, ?_, ?_⟩
  · split
    · simp
    · simp only [lastTen, List.length_drop]; omega
  · split
    · simp
    · simp only [lastTen, List.length_drop]; omega
  · split
    · simp
    · exact List.drop_suffix _ _
  · split
    · simp
    · exact List.drop_suffix _ _
  · intro he; simp [he]
  · intro he; simp [he]

theorem C8_balance_diagnostics_witness :
    (find_unbalanced_braces exUnbalanced).lastOpen =
        lastTen (find_unbalanced_braces exUnbalanced).openTokens ∧
      (find_unbalanced_braces exUnbalanced).lastClose =
        lastTen (find_unbalanced_braces exUnbalanced).closeTokens :=
  (C8_balance_diagnostics exUnbalanced).2.2.2.2.2.2 (by decide)
